import Mathlib

/-!
Shallow embedding of `src/pprl/models/ppt.py` (`PointPatchTransformer`), the
point-patch-transformer observation encoder of the `pprl` repository.

Tensors are modelled as batched lists of feature rows over `ℤ` (real-valued
tensor entries idealized as integers; all claims under verification concern
exact constants 0 and 1, shapes, and structural equalities, none of which
depend on floating-point rounding).  Random draws made by weight initializers
are modelled by an abstract sample stream `rng : ℕ → ℤ` (the distribution of
the draws — truncated normal, kaiming uniform, uniform — is abstracted away;
what is kept is which parameters are freshly drawn and which are set to exact
constants).
-/
/-- A 2-D tensor: a batch of feature rows. -/
abbrev Tensor : Type := List (List ℤ)

/-- `hasShape t b f`: `t` has `b` rows, each of length `f` (shape `[b, f]`). -/
def hasShape (t : Tensor) (b f : ℕ) : Bool :=
  t.length == b && t.all (fun r => r.length == f)

/-- Dot product of two rows. -/
def dotRow (w r : List ℤ) : ℤ := (List.zipWith (· * ·) w r).sum

/-- Model of `torch.nn.Linear`: stored in/out feature counts, a weight matrix
(`outF` rows of length `inF`) and an optional bias vector of length `outF`. -/
structure Linear where
  inF : ℕ
  outF : ℕ
  weight : List (List ℤ)
  bias : Option (List ℤ)

/-- Model of `torch.nn.LayerNorm`'s affine parameters. -/
structure LayerNorm where
  weight : List ℤ
  bias : List ℤ

/-- The tree of parameterized sub-modules owned by a torch module, as visited
by the torch `apply` method: linear leaves, layer-norm leaves, leaves of any other
parameter kind (untouched by `_init_weights`), and composite modules holding
registered sub-modules. -/
inductive NNModule where
  | linear : Linear → NNModule
  | layerNorm : LayerNorm → NNModule
  | otherMod : List ℤ → NNModule
  | pair : NNModule → NNModule → NNModule

/-- Row of `n` fresh draws from the sample stream, starting at offset `off`. -/
def drawRow (rng : ℕ → ℤ) (off n : ℕ) : List ℤ :=
  (List.range n).map fun i => rng (off + i)

/-- Redraw every entry of a matrix from the sample stream, preserving its
shape; returns the next unused offset. -/
def drawMat (rng : ℕ → ℤ) : List (List ℤ) → ℕ → List (List ℤ) × ℕ
  | [], off => ([], off)
  | r :: rs, off =>
    let r' := drawRow rng off r.length
    let (rs', off') := drawMat rng rs (off + r.length)
    (r' :: rs', off')

/-- `PointPatchTransformer._init_weights` on a single `nn.Linear`:
`trunc_normal_(m.weight, std=0.02)` (fresh draws) and, when a bias is
present, `constant_(m.bias, 0)`. -/
def initLinearW (rng : ℕ → ℤ) (l : Linear) (off : ℕ) : Linear × ℕ :=
  let (w', off') := drawMat rng l.weight off
  ({ l with weight := w', bias := l.bias.map fun b => List.replicate b.length 0 }, off')

/-- `PointPatchTransformer._init_weights` on a single `nn.LayerNorm`:
`constant_(m.bias, 0)` and `constant_(m.weight, 1.0)`. -/
def initLayerNormW (ln : LayerNorm) : LayerNorm :=
  { weight := List.replicate ln.weight.length 1, bias := List.replicate ln.bias.length 0 }

/-- `self.apply(self._init_weights)`: recursively visit every sub-module,
re-initializing linear and layer-norm leaves and leaving all other
parameters untouched. -/
def applyInitW (rng : ℕ → ℤ) : NNModule → ℕ → NNModule × ℕ
  | .linear l, off =>
    let (l', off') := initLinearW rng l off
    (.linear l', off')
  | .layerNorm ln, off => (.layerNorm (initLayerNormW ln), off)
  | .otherMod p, off => (.otherMod p, off)
  | .pair a b, off =>
    let (a', o1) := applyInitW rng a off
    let (b', o2) := applyInitW rng b o1
    (.pair a' b', o2)

/-- All entries of a row are exactly 0. -/
def zeroVec (v : List ℤ) : Bool := v.all fun x => x == 0

/-- All entries of a row are exactly 1. -/
def oneVec (v : List ℤ) : Bool := v.all fun x => x == 1

/-- A linear layer's bias is exactly 0 whenever present. -/
def Linear.biasZeroed (l : Linear) : Bool :=
  match l.bias with
  | none => true
  | some b => zeroVec b

/-- A layer-norm's bias is exactly 0 and its scale exactly 1. -/
def LayerNorm.affineReset (ln : LayerNorm) : Bool :=
  zeroVec ln.bias && oneVec ln.weight

/-- The weight-initialization convention of §4.2 of the spec, as a predicate
on a module tree: every linear leaf has zeroed bias (when present) and every
layer-norm leaf has bias 0 and scale 1. -/
def NNModule.initConvention : NNModule → Bool
  | .linear l => l.biasZeroed
  | .layerNorm ln => ln.affineReset
  | .otherMod _ => true
  | .pair a b => a.initConvention && b.initConvention

/-- `nn.Linear(inF, outF)` with its framework-default initialization: weight
entries and the bias vector are drawn from the sample stream (modelling the
kaiming-uniform / uniform defaults); nothing is set to an exact constant. -/
def mkLinearDefault (rng : ℕ → ℤ) (off inF outF : ℕ) : Linear × ℕ :=
  let w := (List.range outF).map fun i => drawRow rng (off + i * inF) inF
  let b := drawRow rng (off + outF * inF) outF
  ({ inF := inF, outF := outF, weight := w, bias := some b }, off + outF * inF + outF)

/-- The key of the point-cloud entry of a composite observation. -/
def pointsKey : String := "points"

/-- Model of the relevant `gymnasium.spaces` kinds: a `PointCloudSpace`
(spec §3: points have a spatial position of fixed dimensionality `pointDim`,
so its `shape` is `(pointDim,)` — `PointCloudSpace` itself lives in
`pprl/envs`, outside `src/`, and is modelled from the spec), a generic
shaped sub-space such as `spaces.Box` (its `shape` tuple), and a composite
`spaces.Dict` of named sub-spaces. -/
inductive Space where
  | pointCloud : ℕ → Space
  | box : List ℕ → Space
  | dict : List (String × Space) → Space

/-- `space.shape[0]`: the first entry of a space's shape tuple, `none` when
the access would fail (empty shape tuple, or a `Dict` space whose `shape`
attribute is not a tuple). -/
def shape0 : Space → Option ℕ
  | .pointCloud pd => some pd
  | .box (w :: _) => some w
  | .box [] => none
  | .dict _ => none

/-- `isinstance(point_space, PointCloudSpace)`. -/
def isPointCloudSpace : Space → Bool
  | .pointCloud _ => true
  | _ => false

/-- Errors that can surface during `PointPatchTransformer.__init__`:
the `KeyError` from `obs_space["points"]`, the `assert isinstance(...)`
failure, and the index/type error from `space.shape[0]` on a shapeless
sub-space. -/
inductive InitError where
  | keyError
  | assertionError
  | shapeError
deriving DecidableEq

/-- The non-`"points"` entries of a composite space, in declared order. -/
def auxSpaces (es : List (String × Space)) : List (String × Space) :=
  es.filter fun p => p.1 != pointsKey

/-- Combined width of a list of sub-spaces: the sum of `space.shape[0]`
over the list, failing if any `shape[0]` access fails. -/
def sumWidths : List (String × Space) → Except InitError ℕ
  | [] => .ok 0
  | (_, s) :: rest =>
    match shape0 s with
    | none => .error .shapeError
    | some w =>
      match sumWidths rest with
      | .error e => .error e
      | .ok r => .ok (w + r)

/-- `state_dim = sum(space.shape[0] for name, space in obs_space.items() if
name != "points")` over a composite space's entries. -/
def sumAuxWidths (es : List (String × Space)) : Except InitError ℕ :=
  sumWidths (auxSpaces es)

/-- Extraction of the point-cloud sub-space at construction:
`obs_space["points"]` when the observation space is a `Dict` (a missing key
raises `KeyError`), the whole space otherwise. -/
def pointSubSpaceE : Space → Except InitError Space
  | .dict es =>
    match List.lookup pointsKey es with
    | some s => .ok s
    | none => .error .keyError
  | s => .ok s

/-- A batched point-cloud structure: flattened point positions, the
batch-membership index of each point, and (possibly empty) per-point
colors. -/
structure PointCloud where
  pos : Tensor
  batch : List ℕ
  color : Tensor

/-- Modelled from the spec: `dict_to_batched_data` (from
`pprl/utils/array_dict.py`, which is not under `src/`) decomposes a batched
point-cloud structure into the three batched tensors (positions,
batch-membership indices, colors) — spec §4.3 step 2 and §6. -/
def dict_to_batched_data (pc : PointCloud) : Tensor × List ℕ × Tensor :=
  (pc.pos, pc.batch, pc.color)

/-- A batched observation: either a bare point cloud, or a composite
carrying the `"points"` point cloud plus the auxiliary fields in their
declared order. -/
inductive Observation where
  | bare : PointCloud → Observation
  | dict : PointCloud → List (String × Tensor) → Observation

/-- The tokenizer collaborator: its parameter tree and its callable
behavior `(positions, batch_index, colors) → (tokens, auxiliary_output,
centers)` (spec §6). -/
structure TokenizerC where
  params : NNModule
  fn : Tensor → List ℕ → Tensor → Tensor × Tensor × Tensor

/-- The positional-embedder collaborator: parameter tree and callable
behavior `(centers) → positions` (spec §6). -/
structure PosEmbedderC where
  params : NNModule
  fn : Tensor → Tensor

/-- The transformer-encoder collaborator: its reported `embed_dim`
attribute, parameter tree, and callable behavior `(tokens, positions) →
contextualized_tokens` (spec §6). -/
structure TransformerEncoderC where
  embed_dim : ℕ
  params : NNModule
  fn : Tensor → Tensor → Tensor

/-- The sequence-pooling collaborator: parameter tree and callable behavior
`(contextualized_tokens) → pooled` (spec §6).  The concrete
`SequencePooling` class lives in `pprl/models/modules/transformer.py`,
outside `src/`; it is kept abstract here and supplied to the constructor
model as a factory, mirroring how the source instantiates
`SequencePooling(embed_dim=embed_dim)`. -/
structure PoolingC where
  params : NNModule
  fn : Tensor → Tensor

/-- The constructed encoder: the flag recording whether the observation
space was composite, the four owned collaborators, the optional
state-projection layer, and the recorded state width. -/
structure PointPatchTransformer where
  obs_is_dict : Bool
  tokenizer : TokenizerC
  pos_embedder : PosEmbedderC
  transformer_encoder : TransformerEncoderC
  pooling : PoolingC
  state_encoder : Option Linear
  state_dim : ℕ

/-- `PointPatchTransformer.__init__` (ppt.py lines 18-59): extract the
point-cloud sub-space (raising `KeyError` on a `Dict` space without a
`"points"` entry), assert it is a `PointCloudSpace`, build the four
sub-modules from the factories, run `self.apply(self._init_weights)` over
them (in registration order), and then — only for composite spaces —
compute the combined auxiliary width and either create the
state-projection layer (recording `state_dim = state_embed_dim`) or record
the raw combined width; bare spaces record `state_dim = 0`.

`buildBase` models ppt.py lines 36-45: instantiate the four sub-modules from
the factories (tokenizer with `point_dim` and `embed_dim`, positional
embedder, transformer encoder and `SequencePooling` with `embed_dim`) and
run the `_init_weights` pass over them in registration order; it returns
the initialized collaborators and the next unused sample offset. -/
def buildBase (tokenizerF : ℕ → ℕ → TokenizerC) (posEmbedderF : ℕ → PosEmbedderC)
    (transformerEncoderF : ℕ → TransformerEncoderC) (seqPoolingF : ℕ → PoolingC)
    (pointDim embedDim : ℕ) (rng : ℕ → ℤ) :
    TokenizerC × PosEmbedderC × TransformerEncoderC × PoolingC × ℕ :=
  let tok := tokenizerF pointDim embedDim
  let pe := posEmbedderF embedDim
  let te := transformerEncoderF embedDim
  let pool := seqPoolingF embedDim
  let (tokP, o1) := applyInitW rng tok.params 0
  let (peP, o2) := applyInitW rng pe.params o1
  let (teP, o3) := applyInitW rng te.params o2
  let (poolP, o4) := applyInitW rng pool.params o3
  ({ tok with params := tokP }, { pe with params := peP },
   { te with params := teP }, { pool with params := poolP }, o4)

/-- The constructor itself; see the comment on `buildBase` above. -/
def PointPatchTransformer.init (obs_space : Space)
    (tokenizerF : ℕ → ℕ → TokenizerC) (posEmbedderF : ℕ → PosEmbedderC)
    (transformerEncoderF : ℕ → TransformerEncoderC) (seqPoolingF : ℕ → PoolingC)
    (embedDim : ℕ) (stateEmbedDim : Option ℕ) (rng : ℕ → ℤ) :
    Except InitError PointPatchTransformer :=
  match pointSubSpaceE obs_space with
  | .error e => .error e
  | .ok pointSpace =>
    match pointSpace with
    | .pointCloud pointDim =>
      let base := buildBase tokenizerF posEmbedderF transformerEncoderF seqPoolingF
        pointDim embedDim rng
      match obs_space with
      | .dict es =>
        match sumAuxWidths es with
        | .error e => .error e
        | .ok stateDim =>
          match stateEmbedDim with
          | some d =>
            let (lin, _) := mkLinearDefault rng base.2.2.2.2 stateDim d
            .ok { obs_is_dict := true, tokenizer := base.1, pos_embedder := base.2.1,
                  transformer_encoder := base.2.2.1, pooling := base.2.2.2.1,
                  state_encoder := some lin, state_dim := d }
          | none =>
            .ok { obs_is_dict := true, tokenizer := base.1, pos_embedder := base.2.1,
                  transformer_encoder := base.2.2.1, pooling := base.2.2.2.1,
                  state_encoder := none, state_dim := stateDim }
      | _ =>
        .ok { obs_is_dict := false, tokenizer := base.1, pos_embedder := base.2.1,
              transformer_encoder := base.2.2.1, pooling := base.2.2.2.1,
              state_encoder := none, state_dim := 0 }
    | _ => .error .assertionError

/-- Concatenation of two 2-D tensors along the feature axis (`dim=-1`). -/
def torchCat2 (a b : Tensor) : Tensor := List.zipWith (· ++ ·) a b

/-- `torch.concatenate(ts, dim=-1)`: fails on an empty list, and on tensors
whose leading (batch) dimensions disagree. -/
def torchConcatenate (ts : List Tensor) : Option Tensor :=
  match ts with
  | [] => none
  | t :: rest =>
    if rest.all fun u => u.length == t.length then some (rest.foldl torchCat2 t)
    else none

/-- Application of an `nn.Linear` to a batch of rows: fails when a row's
width disagrees with `in_features`; otherwise each output row is the
matrix-vector product plus the bias (when present). -/
def linearApply (l : Linear) (t : Tensor) : Option Tensor :=
  if t.all fun r => r.length == l.inF then
    some (t.map fun r =>
      match l.bias with
      | some b => List.zipWith (· + ·) (l.weight.map fun w => dotRow w r) b
      | none => l.weight.map fun w => dotRow w r)
  else none

/-- The point-cloud pipeline of `forward` (ppt.py lines 62-70): decompose
the point cloud, tokenize, positionally embed the patch centers, run the
transformer encoder, and pool. -/
def PointPatchTransformer.pointForward (m : PointPatchTransformer)
    (pc : PointCloud) : Tensor :=
  let (pos, batch, color) := dict_to_batched_data pc
  let (x, _unused, centerPoints) := m.tokenizer.fn pos batch color
  let posE := m.pos_embedder.fn centerPoints
  let x2 := m.transformer_encoder.fn x posE
  m.pooling.fn x2

/-- `PointPatchTransformer.forward` (ppt.py lines 61-81): run the
point-cloud pipeline on the (extracted) point cloud; for composite
observations collect the non-`"points"` fields in declared order, project
them through the state encoder when it exists (concatenating them first),
and concatenate everything onto the pooled vector.  Result is `none` when
the observation's structure disagrees with the recorded `obs_is_dict` flag
or a tensor operation fails. -/
def PointPatchTransformer.forward (m : PointPatchTransformer)
    (observation : Observation) : Option Tensor :=
  match m.obs_is_dict, observation with
  | false, .bare pc => some (m.pointForward pc)
  | true, .dict pts aux =>
    let encoderOut := m.pointForward pts
    match m.state_encoder with
    | some l =>
      match torchConcatenate (aux.map Prod.snd) with
      | none => none
      | some s =>
        match linearApply l s with
        | none => none
        | some s' => torchConcatenate [encoderOut, s']
    | none => torchConcatenate (encoderOut :: aux.map Prod.snd)
  | _, _ => none

/-- The read-only `embed_dim` property (ppt.py lines 83-85). -/
def PointPatchTransformer.embed_dim (m : PointPatchTransformer) : ℕ :=
  m.transformer_encoder.embed_dim + m.state_dim

/-- `shapeList ts B ws`: the tensors in `ts` have shapes `[B, ws i]`
pointwise. -/
def shapeList : List Tensor → ℕ → List ℕ → Bool
  | [], _, [] => true
  | t :: ts, b, w :: ws => hasShape t b w && shapeList ts b ws
  | _, _, _ => false

/-- Well-formedness of a linear layer with respect to declared widths
`a → b`: the stored `in_features` is `a`, the weight matrix is `b × a`, and
the bias (when present) has length `b`. -/
def linWF (l : Linear) (a b : ℕ) : Bool :=
  l.inF == a && l.weight.length == b && (l.weight.all fun r => r.length == a) &&
    (match l.bias with
     | some bv => bv.length == b
     | none => true)

/-- The point-cloud part of an observation. -/
def Observation.pointsOf : Observation → PointCloud
  | .bare pc => pc
  | .dict pts _ => pts

/-- The auxiliary fields of an observation (empty for bare observations). -/
def Observation.auxOf : Observation → List (String × Tensor)
  | .bare _ => []
  | .dict _ aux => aux

/-- A batch of auxiliary fields conforms to the auxiliary sub-spaces when
the two lists align name-by-name and the `i`-th tensor has shape
`[B, shape0 (sub-space i)]`. -/
def auxConform (B : ℕ) : List (String × Tensor) → List (String × Space) → Bool
  | [], [] => true
  | (n, t) :: xs, (n', s) :: ss =>
    n == n' &&
      (match shape0 s with
       | some w => hasShape t B w
       | none => false) &&
      auxConform B xs ss
  | _, _ => false

/-- An observation of batch size `B` conforms to an observation space when
its structure (bare vs composite) matches and, for composite spaces, its
auxiliary fields conform to the non-`"points"` sub-spaces. -/
def conformsTo (obs : Observation) (s : Space) (B : ℕ) : Bool :=
  match obs, s with
  | .bare _, .pointCloud _ => true
  | .dict _ aux, .dict es => auxConform B aux (auxSpaces es)
  | _, _ => false

/-- For composite spaces: every auxiliary sub-space has an accessible first
shape dimension. -/
def auxShapesOk : Space → Bool
  | .dict es => (auxSpaces es).all fun p => (shape0 p.2).isSome
  | _ => true

/-- Auxiliary entries given as first-axis width plus trailing dimensions,
turned into `Box` sub-spaces of shape `(w, t...)`. -/
def mkBoxEntries (aux : List (String × ℕ × List ℕ)) : List (String × Space) :=
  aux.map fun x => (x.1, Space.box (x.2.1 :: x.2.2))

/-- Constant sample stream used by the concrete test configurations. -/
def cRng : ℕ → ℤ := fun _ => 1

/-- Concrete tokenizer behavior for test configurations. -/
def cTokFn : Tensor → List ℕ → Tensor → Tensor × Tensor × Tensor :=
  fun p _ _ => (p, p, p)

/-- Concrete positional-embedder behavior for test configurations. -/
def cPosFn : Tensor → Tensor := fun t => t

/-- Concrete transformer-encoder behavior for test configurations. -/
def cTeFn : Tensor → Tensor → Tensor := fun x _ => x

/-- Concrete pooling behavior for test configurations: one sample, two
features. -/
def cPoolFn : Tensor → Tensor := fun _ => [[0, 0]]

/-- Parameterless tokenizer factory. -/
def cTokF : ℕ → ℕ → TokenizerC := fun _ _ => { params := .otherMod [], fn := cTokFn }

/-- Positional-embedder factory. -/
def cPosF : ℕ → PosEmbedderC := fun _ => { params := .otherMod [], fn := cPosFn }

/-- Transformer-encoder factory; reports the `embed_dim` it was given. -/
def cTeF : ℕ → TransformerEncoderC :=
  fun e => { embed_dim := e, params := .otherMod [], fn := cTeFn }

/-- Pooling factory. -/
def cPoolF : ℕ → PoolingC := fun _ => { params := .otherMod [], fn := cPoolFn }

/-- A linear layer with nonzero parameters, owned by the tokenizer of one
test configuration. -/
def cLin0 : Linear :=
  { inF := 2, outF := 2, weight := [[5, 5], [5, 5]], bias := some [7, 7] }

/-- A layer-norm with non-reset parameters, owned by the tokenizer of one
test configuration. -/
def cLn0 : LayerNorm := { weight := [3, 3], bias := [4, 4] }

/-- Tokenizer factory whose module owns a linear and a layer-norm leaf. -/
def cTokFW : ℕ → ℕ → TokenizerC :=
  fun _ _ => { params := .pair (.linear cLin0) (.layerNorm cLn0), fn := cTokFn }

/-- A one-sample point cloud of 3-D points. -/
def cPC : PointCloud := { pos := [[0, 0, 0]], batch := [0], color := [] }

/-- Bare point-cloud observation space with 3-D points. -/
def cSpaceBare : Space := .pointCloud 3

/-- Composite space: points plus one auxiliary field of width 2. -/
def cSpaceGoal : Space :=
  .dict [(pointsKey, .pointCloud 3), ("goal", .box [2])]

/-- Composite space containing only the points entry. -/
def cSpaceOnlyPoints : Space := .dict [(pointsKey, .pointCloud 3)]

/-- Composite space without a points entry. -/
def cSpaceNoPoints : Space := .dict [("goal", .box [2])]

/-- Composite space whose points entry is a genuine point-cloud space but
whose auxiliary sub-space has an empty shape tuple (such as a scalar
space), so `space.shape[0]` fails after the assertion has passed. -/
def cSpaceBadAux : Space := .dict [(pointsKey, .pointCloud 3), ("flag", .box [])]

/-- The module produced by constructing on the bare space with the concrete
factories (embedding width 2). -/
def cMBare : PointPatchTransformer :=
  { obs_is_dict := false, tokenizer := { params := .otherMod [], fn := cTokFn },
    pos_embedder := { params := .otherMod [], fn := cPosFn },
    transformer_encoder := { embed_dim := 2, params := .otherMod [], fn := cTeFn },
    pooling := { params := .otherMod [], fn := cPoolFn },
    state_encoder := none, state_dim := 2 - 2 }

/-- The module produced by constructing on `cSpaceGoal` without
`state_embed_dim`. -/
def cMGoal : PointPatchTransformer :=
  { obs_is_dict := true, tokenizer := { params := .otherMod [], fn := cTokFn },
    pos_embedder := { params := .otherMod [], fn := cPosFn },
    transformer_encoder := { embed_dim := 2, params := .otherMod [], fn := cTeFn },
    pooling := { params := .otherMod [], fn := cPoolFn },
    state_encoder := none, state_dim := 2 }

/-- The state-projection layer produced with the concrete stream (all
draws are 1) at offset 0, widths 2 → 2. -/
def cStateLin : Linear :=
  { inF := 2, outF := 2, weight := [[1, 1], [1, 1]], bias := some [1, 1] }

/-- The module produced by constructing on `cSpaceGoal` with
`state_embed_dim = 2`. -/
def cMGoalProj : PointPatchTransformer :=
  { obs_is_dict := true, tokenizer := { params := .otherMod [], fn := cTokFn },
    pos_embedder := { params := .otherMod [], fn := cPosFn },
    transformer_encoder := { embed_dim := 2, params := .otherMod [], fn := cTeFn },
    pooling := { params := .otherMod [], fn := cPoolFn },
    state_encoder := some cStateLin, state_dim := 2 }

/-- One auxiliary entry of first-axis width 2 and a trailing dimension. -/
def cAux10 : List (String × ℕ × List ℕ) := [("goal", 2, [7])]

/-- A linear layer after the init pass: nonzero constants replaced. -/
def cLin1 : Linear :=
  { inF := 2, outF := 2, weight := [[1, 1], [1, 1]], bias := some [0, 0] }

/-- A layer-norm after the init pass: bias 0, scale 1. -/
def cLn1 : LayerNorm := { weight := [1, 1], bias := [0, 0] }

/-- The module produced by constructing on `cSpaceGoal` with the
linear-and-norm-owning tokenizer and no `state_embed_dim`. -/
def cMW : PointPatchTransformer :=
  { obs_is_dict := true,
    tokenizer := { params := .pair (.linear cLin1) (.layerNorm cLn1), fn := cTokFn },
    pos_embedder := { params := .otherMod [], fn := cPosFn },
    transformer_encoder := { embed_dim := 2, params := .otherMod [], fn := cTeFn },
    pooling := { params := .otherMod [], fn := cPoolFn },
    state_encoder := none, state_dim := 2 }

theorem zeroVec_replicate (n : ℕ) : zeroVec (List.replicate n 0) = true := by
  simp [zeroVec, List.all_eq_true, List.mem_replicate]

theorem oneVec_replicate (n : ℕ) : oneVec (List.replicate n 1) = true := by
  simp [oneVec, List.all_eq_true, List.mem_replicate]

/-- After the `_init_weights` pass, every visited module satisfies the
initialization convention. -/
theorem applyInitW_initConvention (rng : ℕ → ℤ) (m : NNModule) :
    ∀ off, ((applyInitW rng m off).1).initConvention = true := by
  induction m with
  | linear l =>
    intro off
    simp only [applyInitW, initLinearW, NNModule.initConvention, Linear.biasZeroed]
    cases l.bias with
    | none => simp
    | some b => simp [zeroVec_replicate]
  | layerNorm ln =>
    intro off
    simp [applyInitW, initLayerNormW, NNModule.initConvention, LayerNorm.affineReset,
      zeroVec_replicate, oneVec_replicate]
  | otherMod p => intro off; rfl
  | pair a b iha ihb =>
    intro off
    simp only [applyInitW, NNModule.initConvention]
    simp [iha, ihb]

theorem hasShape_iff {t : Tensor} {b f : ℕ} :
    hasShape t b f = true ↔ t.length = b ∧ ∀ r ∈ t, r.length = f := by
  simp [hasShape, List.all_eq_true]

/-- Every tensor in a shape-conforming list has `B` rows. -/
theorem shapeList_length {B : ℕ} :
    ∀ {ts : List Tensor} {ws : List ℕ}, shapeList ts B ws = true →
      ∀ u ∈ ts, u.length = B := by
  intro ts
  induction ts with
  | nil => intro ws _ u hu; simp at hu
  | cons t ts ih =>
    intro ws h u hu
    cases ws with
    | nil => simp [shapeList] at h
    | cons w ws' =>
      simp only [shapeList, Bool.and_eq_true] at h
      rcases List.mem_cons.mp hu with h1 | h2
      · subst h1; exact (hasShape_iff.mp h.1).1
      · exact ih h.2 u h2

/-- Feature-axis concatenation of two tensors of shapes `[B, w₁]`, `[B, w₂]`
yields shape `[B, w₁ + w₂]`. -/
theorem torchCat2_shape :
    ∀ (a b : Tensor) (B w₁ w₂ : ℕ), hasShape a B w₁ = true →
      hasShape b B w₂ = true → hasShape (torchCat2 a b) B (w₁ + w₂) = true := by
  intro a
  induction a with
  | nil =>
    intro b B w₁ w₂ ha _
    rw [hasShape_iff] at ha ⊢
    refine ⟨?_, ?_⟩
    · simpa [torchCat2] using ha.1
    · intro r hr; simp [torchCat2] at hr
  | cons x xs ih =>
    intro b B w₁ w₂ ha hb
    rw [hasShape_iff] at ha hb
    obtain ⟨hal, har⟩ := ha
    obtain ⟨hbl, hbr⟩ := hb
    cases b with
    | nil =>
      simp only [List.length_cons, List.length_nil] at hal hbl
      omega
    | cons y ys =>
      have hlen : ys.length = xs.length := by
        simp only [List.length_cons] at hal hbl
        omega
      have hxs : hasShape xs xs.length w₁ = true :=
        hasShape_iff.mpr ⟨rfl, fun r hr => har r (List.mem_cons_of_mem _ hr)⟩
      have hys : hasShape ys xs.length w₂ = true :=
        hasShape_iff.mpr ⟨hlen, fun r hr => hbr r (List.mem_cons_of_mem _ hr)⟩
      have htail := ih ys xs.length w₁ w₂ hxs hys
      rw [hasShape_iff] at htail ⊢
      constructor
      · simp only [torchCat2, List.zipWith_cons_cons, List.length_cons]
        simp only [torchCat2] at htail
        rw [htail.1]
        simpa using hal
      · intro r hr
        simp only [torchCat2, List.zipWith_cons_cons] at hr
        rcases List.mem_cons.mp hr with h1 | h2
        · subst h1
          have hx : x.length = w₁ := har x (by simp)
          have hy : y.length = w₂ := hbr y (by simp)
          simp [hx, hy]
        · exact htail.2 r h2

theorem foldl_cat_shape {B : ℕ} :
    ∀ (ts : List Tensor) (ws : List ℕ) (acc : Tensor) (w : ℕ),
      hasShape acc B w = true → shapeList ts B ws = true →
      hasShape (ts.foldl torchCat2 acc) B (w + ws.sum) = true := by
  intro ts
  induction ts with
  | nil =>
    intro ws acc w hacc hts
    cases ws with
    | nil => simpa using hacc
    | cons w' ws' => simp [shapeList] at hts
  | cons t ts ih =>
    intro ws acc w hacc hts
    cases ws with
    | nil => simp [shapeList] at hts
    | cons w' ws' =>
      simp only [shapeList, Bool.and_eq_true] at hts
      have h1 := torchCat2_shape acc t B w w' hacc hts.1
      have h2 := ih ws' (torchCat2 acc t) (w + w') h1 hts.2
      simpa [List.foldl_cons, Nat.add_assoc] using h2

/-- `torch.concatenate` on a non-empty list of tensors of shapes `[B, wᵢ]`
succeeds and produces shape `[B, Σ wᵢ]`. -/
theorem torchConcatenate_shape {B : ℕ} {ts : List Tensor} {ws : List ℕ}
    (h : shapeList ts B ws = true) (hne : ts ≠ []) :
    ∃ out, torchConcatenate ts = some out ∧ hasShape out B ws.sum = true := by
  cases ts with
  | nil => exact absurd rfl hne
  | cons t rest =>
    cases ws with
    | nil => simp [shapeList] at h
    | cons w wsr =>
      have hall := shapeList_length h
      simp only [shapeList, Bool.and_eq_true] at h
      obtain ⟨ht, hrest⟩ := h
      have hcheck : (rest.all fun u => u.length == t.length) = true := by
        rw [List.all_eq_true]
        intro u hu
        have h1 := hall u (List.mem_cons_of_mem _ hu)
        have h2 := (hasShape_iff.mp ht).1
        simp [h1, h2]
      refine ⟨rest.foldl torchCat2 t, ?_, ?_⟩
      · simp [torchConcatenate, hcheck]
      · exact foldl_cat_shape rest wsr t w ht hrest

/-- A freshly constructed default linear layer is well-formed. -/
theorem mkLinearDefault_wf (rng : ℕ → ℤ) (off inF outF : ℕ) :
    linWF (mkLinearDefault rng off inF outF).1 inF outF = true := by
  simp [linWF, mkLinearDefault, drawRow, List.all_eq_true]

/-- Applying a well-formed `a → b` linear layer to a `[B, a]` batch succeeds
and produces a `[B, b]` batch. -/
theorem linearApply_shape {l : Linear} {a b B : ℕ} {t : Tensor}
    (hl : linWF l a b = true) (ht : hasShape t B a = true) :
    ∃ out, linearApply l t = some out ∧ hasShape out B b = true := by
  simp only [linWF, Bool.and_eq_true, beq_iff_eq] at hl
  obtain ⟨⟨⟨hin, hwl⟩, hwr⟩, hb⟩ := hl
  rw [hasShape_iff] at ht
  obtain ⟨htl, htr⟩ := ht
  have hcheck : (t.all fun r => r.length == l.inF) = true := by
    rw [List.all_eq_true]
    intro r hr
    simp [htr r hr, hin]
  have happ : linearApply l t = some (t.map fun r =>
      match l.bias with
      | some bv => List.zipWith (· + ·) (l.weight.map fun w => dotRow w r) bv
      | none => l.weight.map fun w => dotRow w r) := by
    simp [linearApply, hcheck]
  refine ⟨_, happ, ?_⟩
  rw [hasShape_iff]
  constructor
  · simp [htl]
  · intro r hr
    rw [List.mem_map] at hr
    obtain ⟨r₀, _, hrr⟩ := hr
    subst hrr
    cases hbias : l.bias with
    | none => simp [hbias, hwl]
    | some bv =>
      rw [hbias] at hb
      simp only [beq_iff_eq] at hb
      simp [hbias, hwl, hb]

/-- Conforming auxiliary fields have widths `ws` that the construction-time
width sum reproduces: the tensors have shapes `[B, ws i]` and
`sumWidths` over the sub-spaces returns `Σ ws`. -/
theorem auxConform_sound {B : ℕ} :
    ∀ {aux : List (String × Tensor)} {ss : List (String × Space)},
      auxConform B aux ss = true →
      ∃ ws, shapeList (aux.map Prod.snd) B ws = true ∧
        sumWidths ss = .ok ws.sum := by
  intro aux
  induction aux with
  | nil =>
    intro ss h
    cases ss with
    | nil => exact ⟨[], rfl, rfl⟩
    | cons p ps => simp [auxConform] at h
  | cons x xs ih =>
    intro ss h
    obtain ⟨n, t⟩ := x
    cases ss with
    | nil => simp [auxConform] at h
    | cons p ps =>
      obtain ⟨n', s⟩ := p
      cases hs : shape0 s with
      | none => simp [auxConform, hs] at h
      | some w =>
        simp only [auxConform, hs, Bool.and_eq_true] at h
        obtain ⟨⟨_, hshape⟩, hrest⟩ := h
        obtain ⟨ws, hws, hsum⟩ := ih hrest
        refine ⟨w :: ws, ?_, ?_⟩
        · simp [shapeList, hshape, hws]
        · simp [sumWidths, hs, hsum]

/-- Inversion of the constructor on a composite space without
`state_embed_dim`. -/
theorem init_dict_none_eq (es : List (String × Space))
    (tokF : ℕ → ℕ → TokenizerC) (posF : ℕ → PosEmbedderC)
    (teF : ℕ → TransformerEncoderC) (poolF : ℕ → PoolingC)
    (E : ℕ) (rng : ℕ → ℤ) (pd S : ℕ)
    (hpts : List.lookup pointsKey es = some (.pointCloud pd))
    (hS : sumAuxWidths es = .ok S) :
    PointPatchTransformer.init (.dict es) tokF posF teF poolF E none rng =
      .ok { obs_is_dict := true,
            tokenizer := (buildBase tokF posF teF poolF pd E rng).1,
            pos_embedder := (buildBase tokF posF teF poolF pd E rng).2.1,
            transformer_encoder := (buildBase tokF posF teF poolF pd E rng).2.2.1,
            pooling := (buildBase tokF posF teF poolF pd E rng).2.2.2.1,
            state_encoder := none, state_dim := S } := by
  simp [PointPatchTransformer.init, pointSubSpaceE, hpts, hS]

/-- Inversion of the constructor on a composite space with
`state_embed_dim = d`. -/
theorem init_dict_some_eq (es : List (String × Space))
    (tokF : ℕ → ℕ → TokenizerC) (posF : ℕ → PosEmbedderC)
    (teF : ℕ → TransformerEncoderC) (poolF : ℕ → PoolingC)
    (E : ℕ) (rng : ℕ → ℤ) (pd S d : ℕ)
    (hpts : List.lookup pointsKey es = some (.pointCloud pd))
    (hS : sumAuxWidths es = .ok S) :
    PointPatchTransformer.init (.dict es) tokF posF teF poolF E (some d) rng =
      .ok { obs_is_dict := true,
            tokenizer := (buildBase tokF posF teF poolF pd E rng).1,
            pos_embedder := (buildBase tokF posF teF poolF pd E rng).2.1,
            transformer_encoder := (buildBase tokF posF teF poolF pd E rng).2.2.1,
            pooling := (buildBase tokF posF teF poolF pd E rng).2.2.2.1,
            state_encoder := some
              (mkLinearDefault rng (buildBase tokF posF teF poolF pd E rng).2.2.2.2 S d).1,
            state_dim := d } := by
  simp [PointPatchTransformer.init, pointSubSpaceE, hpts, hS]

/-- Inversion of the constructor on a bare point-cloud space. -/
theorem init_bare_eq (pd : ℕ)
    (tokF : ℕ → ℕ → TokenizerC) (posF : ℕ → PosEmbedderC)
    (teF : ℕ → TransformerEncoderC) (poolF : ℕ → PoolingC)
    (E : ℕ) (sed : Option ℕ) (rng : ℕ → ℤ) :
    PointPatchTransformer.init (.pointCloud pd) tokF posF teF poolF E sed rng =
      .ok { obs_is_dict := false,
            tokenizer := (buildBase tokF posF teF poolF pd E rng).1,
            pos_embedder := (buildBase tokF posF teF poolF pd E rng).2.1,
            transformer_encoder := (buildBase tokF posF teF poolF pd E rng).2.2.1,
            pooling := (buildBase tokF posF teF poolF pd E rng).2.2.2.1,
            state_encoder := none, state_dim := 0 } := by
  simp [PointPatchTransformer.init, pointSubSpaceE]

/-- `sumWidths` can only fail with a shape error. -/
theorem sumWidths_error_shape :
    ∀ {ss : List (String × Space)} {e : InitError},
      sumWidths ss = .error e → e = .shapeError := by
  intro ss
  induction ss with
  | nil => intro e h; simp [sumWidths] at h
  | cons p ps ih =>
    intro e h
    obtain ⟨n, s⟩ := p
    cases hs : shape0 s with
    | none =>
      simp [sumWidths, hs] at h
      exact h.symm
    | some w =>
      cases hrec : sumWidths ps with
      | error e' =>
        simp [sumWidths, hs, hrec] at h
        rw [← h]
        exact ih hrec
      | ok r => simp [sumWidths, hs, hrec] at h

/-- When every sub-space has an accessible first shape dimension,
`sumWidths` succeeds. -/
theorem sumWidths_ok_of_shapes :
    ∀ {ss : List (String × Space)},
      ((ss.all fun p => (shape0 p.2).isSome) = true) →
      ∃ S, sumWidths ss = .ok S := by
  intro ss
  induction ss with
  | nil => intro _; exact ⟨0, rfl⟩
  | cons p ps ih =>
    intro h
    obtain ⟨n, s⟩ := p
    simp only [List.all_cons, Bool.and_eq_true] at h
    cases hs : shape0 s with
    | none => rw [hs] at h; simp at h
    | some w =>
      obtain ⟨S, hS⟩ := ih h.2
      exact ⟨w + S, by simp [sumWidths, hs, hS]⟩

/-- Successful construction on a composite space forces a `"points"` entry
that is a point-cloud space and a successful width sum. -/
theorem init_dict_ok_inv {es : List (String × Space)}
    {tokF : ℕ → ℕ → TokenizerC} {posF : ℕ → PosEmbedderC}
    {teF : ℕ → TransformerEncoderC} {poolF : ℕ → PoolingC}
    {E : ℕ} {sed : Option ℕ} {rng : ℕ → ℤ} {m : PointPatchTransformer}
    (hinit : PointPatchTransformer.init (.dict es) tokF posF teF poolF E sed rng = .ok m) :
    ∃ pd S, List.lookup pointsKey es = some (.pointCloud pd) ∧
      sumAuxWidths es = .ok S := by
  cases hl : List.lookup pointsKey es with
  | none => simp [PointPatchTransformer.init, pointSubSpaceE, hl] at hinit
  | some ps =>
    cases ps with
    | pointCloud pd =>
      cases hs : sumAuxWidths es with
      | error e => simp [PointPatchTransformer.init, pointSubSpaceE, hl, hs] at hinit
      | ok S => exact ⟨pd, S, rfl, rfl⟩
    | box sh => simp [PointPatchTransformer.init, pointSubSpaceE, hl] at hinit
    | dict es' => simp [PointPatchTransformer.init, pointSubSpaceE, hl] at hinit

/-- The construction-time width sum over `Box` sub-spaces adds up exactly
the first axes, ignoring trailing dimensions. -/
theorem sumWidths_boxes :
    ∀ (aux : List (String × ℕ × List ℕ)), (∀ x ∈ aux, x.1 ≠ pointsKey) →
      sumWidths ((mkBoxEntries aux).filter fun p => p.1 != pointsKey) =
        .ok ((aux.map fun x => x.2.1).sum) := by
  intro aux
  induction aux with
  | nil => intro _; rfl
  | cons x xs ih =>
    intro h
    obtain ⟨n, w, t⟩ := x
    have hn : n ≠ pointsKey := h (n, w, t) (by simp)
    have hkeep : (n != pointsKey) = true := by simp [hn]
    have ihh := ih fun y hy => h y (List.mem_cons_of_mem _ hy)
    simp only [mkBoxEntries] at ihh
    simp [mkBoxEntries, List.filter_cons, hkeep, sumWidths, shape0, ihh]

/-- The full auxiliary width sum for a composite space made of a
point-cloud entry followed by `Box` entries. -/
theorem sumAuxWidths_boxes (pd : ℕ) (aux : List (String × ℕ × List ℕ))
    (h : ∀ x ∈ aux, x.1 ≠ pointsKey) :
    sumAuxWidths ((pointsKey, Space.pointCloud pd) :: mkBoxEntries aux) =
      .ok ((aux.map fun x => x.2.1).sum) := by
  simpa [sumAuxWidths, auxSpaces, List.filter_cons] using sumWidths_boxes aux h

/-- The transformer encoder stored by `buildBase` reports the factory's
`embed_dim` attribute (the init pass only replaces parameters). -/
theorem buildBase_te_embed_dim (tokF : ℕ → ℕ → TokenizerC) (posF : ℕ → PosEmbedderC)
    (teF : ℕ → TransformerEncoderC) (poolF : ℕ → PoolingC) (pd E : ℕ) (rng : ℕ → ℤ) :
    ((buildBase tokF posF teF poolF pd E rng).2.2.1).embed_dim = (teF E).embed_dim := by
  simp [buildBase]

/-- All four collaborator parameter trees stored by `buildBase` satisfy the
initialization convention. -/
theorem buildBase_params_conv (tokF : ℕ → ℕ → TokenizerC) (posF : ℕ → PosEmbedderC)
    (teF : ℕ → TransformerEncoderC) (poolF : ℕ → PoolingC) (pd E : ℕ) (rng : ℕ → ℤ) :
    ((buildBase tokF posF teF poolF pd E rng).1).params.initConvention = true ∧
    ((buildBase tokF posF teF poolF pd E rng).2.1).params.initConvention = true ∧
    ((buildBase tokF posF teF poolF pd E rng).2.2.1).params.initConvention = true ∧
    ((buildBase tokF posF teF poolF pd E rng).2.2.2.1).params.initConvention = true := by
  refine ⟨?_, ?_, ?_, ?_⟩ <;> simp [buildBase, applyInitW_initConvention]

/-- Forward on a bare observation returns the pooled vector directly. -/
theorem forward_bare_eval (m : PointPatchTransformer) (pc : PointCloud)
    (hdict : m.obs_is_dict = false) :
    m.forward (.bare pc) = some (m.pointForward pc) := by
  simp [PointPatchTransformer.forward, hdict]

/-- Forward on a composite observation without a state encoder concatenates
the pooled vector with the auxiliary fields in declared order. -/
theorem forward_dict_none_eval (m : PointPatchTransformer) (pts : PointCloud)
    (aux : List (String × Tensor))
    (hdict : m.obs_is_dict = true) (henc : m.state_encoder = none) :
    m.forward (.dict pts aux) =
      torchConcatenate (m.pointForward pts :: aux.map Prod.snd) := by
  simp [PointPatchTransformer.forward, hdict, henc]

/-- Forward on a composite observation with a state encoder: concatenate
the auxiliary fields, project, and concatenate onto the pooled vector. -/
theorem forward_dict_some_eval (m : PointPatchTransformer) (pts : PointCloud)
    (aux : List (String × Tensor)) (l : Linear) (s s' out : Tensor)
    (hdict : m.obs_is_dict = true) (henc : m.state_encoder = some l)
    (h1 : torchConcatenate (aux.map Prod.snd) = some s)
    (h2 : linearApply l s = some s')
    (h3 : torchConcatenate [m.pointForward pts, s'] = some out) :
    m.forward (.dict pts aux) = some out := by
  simp [PointPatchTransformer.forward, hdict, henc, h1, h2, h3]

/-- Forward on a composite observation with a state encoder but no
auxiliary fields fails: `torch.concatenate` rejects the empty list. -/
theorem forward_dict_some_empty (m : PointPatchTransformer) (pts : PointCloud)
    (l : Linear) (hdict : m.obs_is_dict = true) (henc : m.state_encoder = some l) :
    m.forward (.dict pts []) = none := by
  simp [PointPatchTransformer.forward, hdict, henc, torchConcatenate]

/-- C5: for every bare point-cloud observation of batch size B, the forward
pass decomposes the point cloud into (positions, batch-index, colors), runs
the tokenizer, runs the positional embedder on the patch centers, runs the
transformer encoder on (tokens, positional embeddings), pools, and returns
the pooled vector directly with no concatenation, so the output has shape
[B, embed_dim]. -/
theorem c5_bare_forward_pipeline (tokF : ℕ → ℕ → TokenizerC)
    (posF : ℕ → PosEmbedderC) (teF : ℕ → TransformerEncoderC)
    (poolF : ℕ → PoolingC) (E pd B : ℕ) (sed : Option ℕ) (rng : ℕ → ℤ)
    (pc : PointCloud) (m : PointPatchTransformer)
    (hinit : PointPatchTransformer.init (.pointCloud pd) tokF posF teF poolF E sed rng = .ok m)
    (hTE : (teF E).embed_dim = E)
    (hpool : hasShape (m.pointForward pc) B E = true) :
    m.pointForward pc =
      m.pooling.fn (m.transformer_encoder.fn
        (m.tokenizer.fn (dict_to_batched_data pc).1 (dict_to_batched_data pc).2.1
          (dict_to_batched_data pc).2.2).1
        (m.pos_embedder.fn
          (m.tokenizer.fn (dict_to_batched_data pc).1 (dict_to_batched_data pc).2.1
            (dict_to_batched_data pc).2.2).2.2)) ∧
    m.forward (.bare pc) = some (m.pointForward pc) ∧
    hasShape (m.pointForward pc) B m.embed_dim = true := by
  rw [init_bare_eq] at hinit
  injection hinit with hm
  have hdict : m.obs_is_dict = false := by rw [← hm]
  have hted : m.transformer_encoder.embed_dim = (teF E).embed_dim := by
    rw [← hm]
    exact buildBase_te_embed_dim tokF posF teF poolF pd E rng
  have hsd : m.state_dim = 0 := by rw [← hm]
  have hED : m.embed_dim = E := by
    simp [PointPatchTransformer.embed_dim, hted, hsd, hTE]
  refine ⟨rfl, forward_bare_eval m pc hdict, ?_⟩
  rw [hED]
  exact hpool

/-- C5 witness: the pipeline theorem at a concrete bare configuration. -/
theorem c5_witness :
    cMBare.pointForward cPC =
      cMBare.pooling.fn (cMBare.transformer_encoder.fn
        (cMBare.tokenizer.fn (dict_to_batched_data cPC).1 (dict_to_batched_data cPC).2.1
          (dict_to_batched_data cPC).2.2).1
        (cMBare.pos_embedder.fn
          (cMBare.tokenizer.fn (dict_to_batched_data cPC).1 (dict_to_batched_data cPC).2.1
            (dict_to_batched_data cPC).2.2).2.2)) ∧
    cMBare.forward (.bare cPC) = some (cMBare.pointForward cPC) ∧
    hasShape (cMBare.pointForward cPC) 1 cMBare.embed_dim = true :=
  c5_bare_forward_pipeline cTokF cPosF cTeF cPoolF 2 3 1 none cRng cPC cMBare rfl rfl (by decide)

/-- C7: with fixed weights and deterministic collaborator components, two
forward calls on identical input produce identical output: the forward pass
is a pure function of the module and the observation. -/
theorem c7_forward_deterministic (m : PointPatchTransformer)
    (o₁ o₂ : Observation) (h : o₁ = o₂) :
    m.forward o₁ = m.forward o₂ := by rw [h]

/-- C7 witness: two calls on the same concrete observation agree. -/
theorem c7_witness :
    Observation.bare cPC = Observation.bare cPC ∧
    cMBare.forward (.bare cPC) = cMBare.forward (.bare cPC) :=
  ⟨rfl, c7_forward_deterministic cMBare (.bare cPC) (.bare cPC) rfl⟩

/-- C8: for every bare point-cloud observation space the `state_embed_dim`
constructor argument has no effect: the constructed module is identical to
the one built with `state_embed_dim` absent, no state-projection layer is
created, the recorded state width is 0, and `embed_dim` equals the
transformer encoder's width. -/
theorem c8_bare_ignores_state_embed_dim (tokF : ℕ → ℕ → TokenizerC)
    (posF : ℕ → PosEmbedderC) (teF : ℕ → TransformerEncoderC)
    (poolF : ℕ → PoolingC) (E pd d : ℕ) (rng : ℕ → ℤ) :
    PointPatchTransformer.init (.pointCloud pd) tokF posF teF poolF E (some d) rng =
      PointPatchTransformer.init (.pointCloud pd) tokF posF teF poolF E none rng ∧
    ∃ m, PointPatchTransformer.init (.pointCloud pd) tokF posF teF poolF E (some d) rng = .ok m ∧
      m.state_encoder = none ∧ m.state_dim = 0 ∧ m.embed_dim = (teF E).embed_dim := by
  constructor
  · rw [init_bare_eq, init_bare_eq]
  · refine ⟨_, init_bare_eq pd tokF posF teF poolF E (some d) rng, rfl, rfl, ?_⟩
    simp [PointPatchTransformer.embed_dim, buildBase_te_embed_dim]

/-- C9: constructing with a dict observation space that has no `"points"`
entry fails with a key-lookup error, before the point-cloud-space assertion
is ever reached; the assertion failure occurs only when the point sub-space
(the `"points"` entry, or the bare space) exists but is not a point-cloud
space. -/
theorem c9_keyerror_before_assert (tokF : ℕ → ℕ → TokenizerC)
    (posF : ℕ → PosEmbedderC) (teF : ℕ → TransformerEncoderC)
    (poolF : ℕ → PoolingC) (E : ℕ) (sed : Option ℕ) (rng : ℕ → ℤ)
    (es : List (String × Space))
    (hnone : List.lookup pointsKey es = none) :
    PointPatchTransformer.init (.dict es) tokF posF teF poolF E sed rng = .error .keyError ∧
    ∀ (s : Space) (sed' : Option ℕ),
      PointPatchTransformer.init s tokF posF teF poolF E sed' rng = .error .assertionError →
      ∃ ps, pointSubSpaceE s = .ok ps ∧ isPointCloudSpace ps = false := by
  constructor
  · simp [PointPatchTransformer.init, pointSubSpaceE, hnone]
  · intro s sed' h
    cases s with
    | pointCloud pd =>
      rw [init_bare_eq] at h
      simp at h
    | box sh => exact ⟨.box sh, rfl, rfl⟩
    | dict es' =>
      cases hl : List.lookup pointsKey es' with
      | none => simp [PointPatchTransformer.init, pointSubSpaceE, hl] at h
      | some ps =>
        cases ps with
        | pointCloud pd =>
          exfalso
          cases hs : sumAuxWidths es' with
          | error e =>
            have he : e = InitError.shapeError :=
              sumWidths_error_shape (by simpa [sumAuxWidths] using hs)
            subst he
            simp [PointPatchTransformer.init, pointSubSpaceE, hl, hs] at h
          | ok S =>
            cases sed' with
            | some d => simp [PointPatchTransformer.init, pointSubSpaceE, hl, hs] at h
            | none => simp [PointPatchTransformer.init, pointSubSpaceE, hl, hs] at h
        | box sh2 => exact ⟨.box sh2, by simp [pointSubSpaceE, hl], rfl⟩
        | dict es2 => exact ⟨.dict es2, by simp [pointSubSpaceE, hl], rfl⟩

/-- C9 witness: the missing-key failure at a concrete dict space. -/
theorem c9_witness :
    PointPatchTransformer.init cSpaceNoPoints cTokF cPosF cTeF cPoolF 2 none cRng =
      .error .keyError :=
  (c9_keyerror_before_assert cTokF cPosF cTeF cPoolF 2 none cRng
    [("goal", .box [2])] rfl).1

/-- C6 counterexample: a composite space whose `"points"` entry is a
point-cloud space (so the assertion passes) but whose auxiliary sub-space
has an empty shape tuple.  Construction does not complete: the
`space.shape[0]` access on the auxiliary sub-space fails with a shape
(index) error after the assertion passed, refuting the unqualified "when
the assertion passes, construction completes". -/
theorem c6_counterexample :
    pointSubSpaceE cSpaceBadAux = .ok (.pointCloud 3) ∧
    isPointCloudSpace (.pointCloud 3) = true ∧
    PointPatchTransformer.init cSpaceBadAux cTokF cPosF cTeF cPoolF 2 none cRng =
      .error .shapeError :=
  ⟨rfl, rfl, rfl⟩

/-- C6 (amended): construction fails with an assertion failure iff the
point-cloud sub-space (the whole space if bare, else the `"points"` entry)
is not a point-cloud space; when the assertion passes, construction
completes provided every auxiliary sub-space has an accessible first shape
dimension — with an empty-shape auxiliary sub-space the `shape[0]` access
fails after the assertion passed, so the unqualified completion claim is
false. -/
theorem c6_assertion_iff_not_pointcloud (tokF : ℕ → ℕ → TokenizerC)
    (posF : ℕ → PosEmbedderC) (teF : ℕ → TransformerEncoderC)
    (poolF : ℕ → PoolingC) (E : ℕ) (sed : Option ℕ) (rng : ℕ → ℤ)
    (obs_space ps : Space)
    (hps : pointSubSpaceE obs_space = .ok ps) :
    (PointPatchTransformer.init obs_space tokF posF teF poolF E sed rng =
        .error .assertionError ↔ isPointCloudSpace ps = false) ∧
    (isPointCloudSpace ps = true → auxShapesOk obs_space = true →
      ∃ m, PointPatchTransformer.init obs_space tokF posF teF poolF E sed rng = .ok m) := by
  cases obs_space with
  | pointCloud pd =>
    have hps' : Space.pointCloud pd = ps := by simpa [pointSubSpaceE] using hps
    subst hps'
    constructor
    · rw [init_bare_eq]
      simp [isPointCloudSpace]
    · intro _ _
      exact ⟨_, init_bare_eq pd tokF posF teF poolF E sed rng⟩
  | box sh =>
    have hps' : Space.box sh = ps := by simpa [pointSubSpaceE] using hps
    subst hps'
    constructor
    · simp [PointPatchTransformer.init, pointSubSpaceE, isPointCloudSpace]
    · intro htrue _
      simp [isPointCloudSpace] at htrue
  | dict es =>
    cases hl : List.lookup pointsKey es with
    | none => simp [pointSubSpaceE, hl] at hps
    | some ps' =>
      have hps' : ps' = ps := by simpa [pointSubSpaceE, hl] using hps
      subst hps'
      cases ps' with
      | pointCloud pd =>
        constructor
        · constructor
          · intro h
            exfalso
            cases hs : sumAuxWidths es with
            | error e =>
              have he : e = InitError.shapeError :=
                sumWidths_error_shape (by simpa [sumAuxWidths] using hs)
              subst he
              simp [PointPatchTransformer.init, pointSubSpaceE, hl, hs] at h
            | ok S =>
              cases sed with
              | some d => simp [PointPatchTransformer.init, pointSubSpaceE, hl, hs] at h
              | none => simp [PointPatchTransformer.init, pointSubSpaceE, hl, hs] at h
          · intro hfalse
            simp [isPointCloudSpace] at hfalse
        · intro _ haux
          obtain ⟨S, hS⟩ := sumWidths_ok_of_shapes (by simpa [auxShapesOk] using haux)
          have hS' : sumAuxWidths es = .ok S := by simpa [sumAuxWidths] using hS
          cases sed with
          | none => exact ⟨_, init_dict_none_eq es tokF posF teF poolF E rng pd S hl hS'⟩
          | some d => exact ⟨_, init_dict_some_eq es tokF posF teF poolF E rng pd S d hl hS'⟩
      | box sh2 =>
        constructor
        · simp [PointPatchTransformer.init, pointSubSpaceE, hl, isPointCloudSpace]
        · intro htrue _
          simp [isPointCloudSpace] at htrue
      | dict es2 =>
        constructor
        · simp [PointPatchTransformer.init, pointSubSpaceE, hl, isPointCloudSpace]
        · intro htrue _
          simp [isPointCloudSpace] at htrue

/-- C6 witness: the assertion fires at a concrete non-point-cloud bare
space and the iff instance holds there. -/
theorem c6_witness :
    (PointPatchTransformer.init (Space.box [3]) cTokF cPosF cTeF cPoolF 2 none cRng =
        .error .assertionError ↔ isPointCloudSpace (Space.box [3]) = false) ∧
    (isPointCloudSpace (Space.box [3]) = true → auxShapesOk (Space.box [3]) = true →
      ∃ m, PointPatchTransformer.init (Space.box [3]) cTokF cPosF cTeF cPoolF 2 none cRng = .ok m) :=
  c6_assertion_iff_not_pointcloud cTokF cPosF cTeF cPoolF 2 none cRng
    (Space.box [3]) (Space.box [3]) rfl

/-- C10: for composite spaces the combined auxiliary width used at
construction — recorded as the unprojected state width and used to size the
projection layer — is the sum over the non-`"points"` sub-spaces of the
first dimension of each sub-space's shape only; trailing shape dimensions
contribute nothing. -/
theorem c10_state_width_first_axis (tokF : ℕ → ℕ → TokenizerC)
    (posF : ℕ → PosEmbedderC) (teF : ℕ → TransformerEncoderC)
    (poolF : ℕ → PoolingC) (E pd d : ℕ) (rng : ℕ → ℤ)
    (aux : List (String × ℕ × List ℕ))
    (hnames : ∀ x ∈ aux, x.1 ≠ pointsKey) :
    (∃ m, PointPatchTransformer.init (.dict ((pointsKey, .pointCloud pd) :: mkBoxEntries aux))
        tokF posF teF poolF E none rng = .ok m ∧
      m.state_dim = (aux.map fun x => x.2.1).sum ∧ m.state_encoder = none) ∧
    (∃ m l, PointPatchTransformer.init (.dict ((pointsKey, .pointCloud pd) :: mkBoxEntries aux))
        tokF posF teF poolF E (some d) rng = .ok m ∧
      m.state_encoder = some l ∧ l.inF = (aux.map fun x => x.2.1).sum ∧
      l.outF = d ∧ m.state_dim = d) := by
  have hpts : List.lookup pointsKey ((pointsKey, Space.pointCloud pd) :: mkBoxEntries aux) =
      some (.pointCloud pd) := by simp
  have hS := sumAuxWidths_boxes pd aux hnames
  constructor
  · exact ⟨_, init_dict_none_eq _ tokF posF teF poolF E rng pd _ hpts hS, rfl, rfl⟩
  · exact ⟨_, _, init_dict_some_eq _ tokF posF teF poolF E rng pd _ d hpts hS,
      rfl, rfl, rfl, rfl⟩

/-- C10 witness: the width sum at a concrete two-axis auxiliary space. -/
theorem c10_witness :
    (∃ m, PointPatchTransformer.init (.dict ((pointsKey, .pointCloud 3) :: mkBoxEntries cAux10))
        cTokF cPosF cTeF cPoolF 2 none cRng = .ok m ∧
      m.state_dim = (cAux10.map fun x => x.2.1).sum ∧ m.state_encoder = none) ∧
    (∃ m l, PointPatchTransformer.init (.dict ((pointsKey, .pointCloud 3) :: mkBoxEntries cAux10))
        cTokF cPosF cTeF cPoolF 2 (some 4) cRng = .ok m ∧
      m.state_encoder = some l ∧ l.inF = (cAux10.map fun x => x.2.1).sum ∧
      l.outF = 4 ∧ m.state_dim = 4) :=
  c10_state_width_first_axis cTokF cPosF cTeF cPoolF 2 3 4 cRng cAux10 (by decide)

/-- C2 counterexample: at a concrete composite configuration with
`state_embed_dim = 2`, construction succeeds but the state-projection
layer's bias is the framework-default draw `[1, 1]`, not 0 — because
`self.apply(self._init_weights)` runs before the layer is created. -/
theorem c2_counterexample :
    (PointPatchTransformer.init cSpaceGoal cTokF cPosF cTeF cPoolF 2 (some 2) cRng).toOption.map
      (fun m => (m.state_encoder.map Linear.biasZeroed, m.state_encoder.map Linear.bias)) =
      some (some false, some (some [1, 1])) := by decide

/-- C2 (amended): after construction, every linear layer among the
sub-modules existing at the initialization pass (tokenizer, positional
embedder, transformer encoder, pooling) has bias exactly 0 when present,
and every normalization layer there has bias 0 and scale exactly 1; the
state-projection layer, created after the pass, instead keeps the
framework-default initialization (fresh draws for weight and bias), so the
stated initialization ordering does have a behavioral effect. -/
theorem c2_init_weights_convention (tokF : ℕ → ℕ → TokenizerC)
    (posF : ℕ → PosEmbedderC) (teF : ℕ → TransformerEncoderC)
    (poolF : ℕ → PoolingC) (E : ℕ) (sed : Option ℕ) (rng : ℕ → ℤ)
    (obs_space : Space) (m : PointPatchTransformer)
    (hinit : PointPatchTransformer.init obs_space tokF posF teF poolF E sed rng = .ok m) :
    m.tokenizer.params.initConvention = true ∧
    m.pos_embedder.params.initConvention = true ∧
    m.transformer_encoder.params.initConvention = true ∧
    m.pooling.params.initConvention = true ∧
    ∀ l, m.state_encoder = some l → ∃ off, l = (mkLinearDefault rng off l.inF l.outF).1 := by
  cases obs_space with
  | pointCloud pd =>
    rw [init_bare_eq] at hinit
    injection hinit with hm
    subst hm
    have hb := buildBase_params_conv tokF posF teF poolF pd E rng
    exact ⟨hb.1, hb.2.1, hb.2.2.1, hb.2.2.2, fun l h => Option.noConfusion h⟩
  | box sh => simp [PointPatchTransformer.init, pointSubSpaceE] at hinit
  | dict es =>
    obtain ⟨pd, S, hl, hS⟩ := init_dict_ok_inv hinit
    cases sed with
    | none =>
      rw [init_dict_none_eq es tokF posF teF poolF E rng pd S hl hS] at hinit
      injection hinit with hm
      subst hm
      have hb := buildBase_params_conv tokF posF teF poolF pd E rng
      exact ⟨hb.1, hb.2.1, hb.2.2.1, hb.2.2.2, fun l h => Option.noConfusion h⟩
    | some d =>
      rw [init_dict_some_eq es tokF posF teF poolF E rng pd S d hl hS] at hinit
      injection hinit with hm
      subst hm
      have hb := buildBase_params_conv tokF posF teF poolF pd E rng
      refine ⟨hb.1, hb.2.1, hb.2.2.1, hb.2.2.2, ?_⟩
      intro l h
      injection h with hl2
      subst hl2
      exact ⟨(buildBase tokF posF teF poolF pd E rng).2.2.2.2, rfl⟩

/-- C2 witness: the amended convention at a concrete configuration whose
tokenizer owns a linear and a layer-norm leaf. -/
theorem c2_witness :
    cMW.tokenizer.params.initConvention = true ∧
    cMW.pos_embedder.params.initConvention = true ∧
    cMW.transformer_encoder.params.initConvention = true ∧
    cMW.pooling.params.initConvention = true ∧
    ∀ l, cMW.state_encoder = some l → ∃ off, l = (mkLinearDefault cRng off l.inF l.outF).1 :=
  c2_init_weights_convention cTokFW cPosF cTeF cPoolF 2 none cRng cSpaceGoal cMW rfl

/-- C4: for every composite observation space whose auxiliary fields sum to
width S, with `state_embed_dim` not configured: no projection layer is
created, the recorded state width is the raw combined width S, and the
forward output on a conforming batch of size B has shape [B, E + S] (E the
transformer embedding width, given the pooling contract). -/
theorem c4_composite_unprojected (tokF : ℕ → ℕ → TokenizerC)
    (posF : ℕ → PosEmbedderC) (teF : ℕ → TransformerEncoderC)
    (poolF : ℕ → PoolingC) (E pd B : ℕ) (rng : ℕ → ℤ)
    (es : List (String × Space)) (pts : PointCloud)
    (aux : List (String × Tensor)) (m : PointPatchTransformer)
    (hinit : PointPatchTransformer.init (.dict es) tokF posF teF poolF E none rng = .ok m)
    (hpts : List.lookup pointsKey es = some (.pointCloud pd))
    (hconf : auxConform B aux (auxSpaces es) = true)
    (hpool : hasShape (m.pointForward pts) B E = true) :
    m.state_encoder = none ∧ sumAuxWidths es = .ok m.state_dim ∧
    ∃ out, m.forward (.dict pts aux) = some out ∧
      hasShape out B (E + m.state_dim) = true := by
  obtain ⟨ws, hws, hsum⟩ := auxConform_sound hconf
  have hS : sumAuxWidths es = .ok ws.sum := by simpa [sumAuxWidths] using hsum
  rw [init_dict_none_eq es tokF posF teF poolF E rng pd ws.sum hpts hS] at hinit
  injection hinit with hm
  have hdict : m.obs_is_dict = true := by rw [← hm]
  have henc : m.state_encoder = none := by rw [← hm]
  have hsd : m.state_dim = ws.sum := by rw [← hm]
  have hshape : shapeList (m.pointForward pts :: aux.map Prod.snd) B (E :: ws) = true := by
    simp [shapeList, hws, hpool]
  obtain ⟨out, ho1, ho2⟩ := torchConcatenate_shape hshape (by simp)
  refine ⟨henc, by rw [hsd]; exact hS, out, ?_, ?_⟩
  · rw [forward_dict_none_eval m pts aux hdict henc]
    exact ho1
  · rw [hsd]
    simpa using ho2

/-- C4 witness: the unprojected composite configuration with one auxiliary
field of width 2, batch size 1, embedding width 2. -/
theorem c4_witness :
    cMGoal.state_encoder = none ∧
    sumAuxWidths [(pointsKey, .pointCloud 3), ("goal", .box [2])] = .ok cMGoal.state_dim ∧
    ∃ out, cMGoal.forward (.dict cPC [("goal", [[5, 6]])]) = some out ∧
      hasShape out 1 (2 + cMGoal.state_dim) = true :=
  c4_composite_unprojected cTokF cPosF cTeF cPoolF 2 3 1 cRng
    [(pointsKey, .pointCloud 3), ("goal", .box [2])] cPC [("goal", [[5, 6]])] cMGoal
    rfl rfl (by decide) (by decide)

/-- C3: for every composite observation space with auxiliary fields and
`state_embed_dim = D`: construction creates a linear projection from the
combined auxiliary width S to D and records state width D; the forward pass
concatenates the non-points fields in declared order, applies the
projection, concatenates the result onto the pooled embedding, and the
output has shape [B, E + D] regardless of S (given the pooling contract). -/
theorem c3_composite_projected (tokF : ℕ → ℕ → TokenizerC)
    (posF : ℕ → PosEmbedderC) (teF : ℕ → TransformerEncoderC)
    (poolF : ℕ → PoolingC) (E pd B d : ℕ) (rng : ℕ → ℤ)
    (es : List (String × Space)) (pts : PointCloud)
    (aux : List (String × Tensor)) (m : PointPatchTransformer)
    (hinit : PointPatchTransformer.init (.dict es) tokF posF teF poolF E (some d) rng = .ok m)
    (hpts : List.lookup pointsKey es = some (.pointCloud pd))
    (hconf : auxConform B aux (auxSpaces es) = true)
    (hne : aux ≠ [])
    (hpool : hasShape (m.pointForward pts) B E = true) :
    m.state_dim = d ∧
    ∃ l, m.state_encoder = some l ∧ sumAuxWidths es = .ok l.inF ∧ l.outF = d ∧
    ∃ s s' out,
      torchConcatenate (aux.map Prod.snd) = some s ∧
      linearApply l s = some s' ∧
      torchConcatenate [m.pointForward pts, s'] = some out ∧
      m.forward (.dict pts aux) = some out ∧
      hasShape out B (E + d) = true := by
  obtain ⟨ws, hws, hsum⟩ := auxConform_sound hconf
  have hS : sumAuxWidths es = .ok ws.sum := by simpa [sumAuxWidths] using hsum
  rw [init_dict_some_eq es tokF posF teF poolF E rng pd ws.sum d hpts hS] at hinit
  injection hinit with hm
  have hdict : m.obs_is_dict = true := by rw [← hm]
  have henc : m.state_encoder =
      some (mkLinearDefault rng (buildBase tokF posF teF poolF pd E rng).2.2.2.2 ws.sum d).1 := by
    rw [← hm]
  have hsd : m.state_dim = d := by rw [← hm]
  have hauxne : aux.map Prod.snd ≠ [] := by
    cases aux with
    | nil => exact absurd rfl hne
    | cons a as => simp
  obtain ⟨s, hs1, hs2⟩ := torchConcatenate_shape hws hauxne
  have hwf := mkLinearDefault_wf rng (buildBase tokF posF teF poolF pd E rng).2.2.2.2 ws.sum d
  obtain ⟨s', hp1, hp2⟩ := linearApply_shape hwf hs2
  have hfin : shapeList [m.pointForward pts, s'] B [E, d] = true := by
    simp [shapeList, hpool, hp2]
  obtain ⟨out, ho1, ho2⟩ := torchConcatenate_shape hfin (by simp)
  refine ⟨hsd, _, henc, hS, rfl, s, s', out, hs1, hp1, ho1, ?_, ?_⟩
  · exact forward_dict_some_eval m pts aux _ s s' out hdict henc hs1 hp1 ho1
  · simpa using ho2

/-- C3 witness: the projected composite configuration with one auxiliary
field of width 2 projected to width 2, batch size 1, embedding width 2. -/
theorem c3_witness :
    cMGoalProj.state_dim = 2 ∧
    ∃ l, cMGoalProj.state_encoder = some l ∧
      sumAuxWidths [(pointsKey, .pointCloud 3), ("goal", .box [2])] = .ok l.inF ∧
      l.outF = 2 ∧
    ∃ s s' out,
      torchConcatenate ([("goal", ([[5, 6]] : Tensor))].map Prod.snd) = some s ∧
      linearApply l s = some s' ∧
      torchConcatenate [cMGoalProj.pointForward cPC, s'] = some out ∧
      cMGoalProj.forward (.dict cPC [("goal", [[5, 6]])]) = some out ∧
      hasShape out 1 (2 + 2) = true :=
  c3_composite_projected cTokF cPosF cTeF cPoolF 2 3 1 2 cRng
    [(pointsKey, .pointCloud 3), ("goal", .box [2])] cPC [("goal", [[5, 6]])] cMGoalProj
    rfl rfl (by decide) (by decide) (by decide)

/-- C1 counterexample: a valid composite configuration with a state
projection but no auxiliary fields.  Construction succeeds, the observation
(just the points entry) conforms to the space, the pooling collaborator
meets its contract, yet the forward call returns no tensor at all
(`torch.concatenate` raises on the empty state list), so no forward output
realizes the reported `embed_dim`. -/
theorem c1_counterexample :
    (PointPatchTransformer.init cSpaceOnlyPoints cTokF cPosF cTeF cPoolF 2 (some 2) cRng).toOption.map
      (fun m => (m.forward (.dict cPC []), m.embed_dim)) = some (none, 4) ∧
    conformsTo (.dict cPC []) cSpaceOnlyPoints 1 = true := by
  constructor
  · rfl
  · rfl

/-- C1 (amended): for every valid configuration, the read-only `embed_dim`
property equals the transformer-encoder embedding width plus the recorded
state width, and — provided that an observation carries at least one
auxiliary field whenever the state-projection layer exists — this value
equals the trailing dimension of the tensor returned by every forward call
on a conforming observation, assuming the collaborator contracts of spec §6
(the transformer encoder reports the `embed_dim` it was built with, and the
point pipeline pools to shape [B, E]).  Without that proviso the forward
call on a projected composite with zero auxiliary fields fails instead of
returning a tensor. -/
theorem c1_embed_dim_matches_output (tokF : ℕ → ℕ → TokenizerC)
    (posF : ℕ → PosEmbedderC) (teF : ℕ → TransformerEncoderC)
    (poolF : ℕ → PoolingC) (E B : ℕ) (sed : Option ℕ) (rng : ℕ → ℤ)
    (obs_space : Space) (obs : Observation) (m : PointPatchTransformer)
    (hinit : PointPatchTransformer.init obs_space tokF posF teF poolF E sed rng = .ok m)
    (hTE : (teF E).embed_dim = E)
    (hconf : conformsTo obs obs_space B = true)
    (hpool : hasShape (m.pointForward obs.pointsOf) B E = true)
    (hne : m.state_encoder.isSome = true → obs.auxOf ≠ []) :
    m.embed_dim = m.transformer_encoder.embed_dim + m.state_dim ∧
    ∃ out, m.forward obs = some out ∧ hasShape out B m.embed_dim = true := by
  refine ⟨rfl, ?_⟩
  cases obs with
  | bare pc =>
    cases obs_space with
    | pointCloud pd =>
      rw [init_bare_eq] at hinit
      injection hinit with hm
      have hdict : m.obs_is_dict = false := by rw [← hm]
      have hted : m.transformer_encoder.embed_dim = (teF E).embed_dim := by
        rw [← hm]
        exact buildBase_te_embed_dim tokF posF teF poolF pd E rng
      have hsd : m.state_dim = 0 := by rw [← hm]
      have hED : m.embed_dim = E := by
        simp [PointPatchTransformer.embed_dim, hted, hsd, hTE]
      refine ⟨_, forward_bare_eval m pc hdict, ?_⟩
      rw [hED]
      exact hpool
    | box sh => simp [PointPatchTransformer.init, pointSubSpaceE] at hinit
    | dict es => simp [conformsTo] at hconf
  | dict pts aux =>
    cases obs_space with
    | pointCloud pd => simp [conformsTo] at hconf
    | box sh => simp [conformsTo] at hconf
    | dict es =>
      obtain ⟨pd, S0, hl, hS0⟩ := init_dict_ok_inv hinit
      have hconf' : auxConform B aux (auxSpaces es) = true := by
        simpa [conformsTo] using hconf
      obtain ⟨ws, hws, hsum⟩ := auxConform_sound hconf'
      have hS : sumAuxWidths es = .ok ws.sum := by simpa [sumAuxWidths] using hsum
      cases sed with
      | none =>
        rw [init_dict_none_eq es tokF posF teF poolF E rng pd ws.sum hl hS] at hinit
        injection hinit with hm
        have hdict : m.obs_is_dict = true := by rw [← hm]
        have henc : m.state_encoder = none := by rw [← hm]
        have hted : m.transformer_encoder.embed_dim = (teF E).embed_dim := by
          rw [← hm]
          exact buildBase_te_embed_dim tokF posF teF poolF pd E rng
        have hsd : m.state_dim = ws.sum := by rw [← hm]
        have hED : m.embed_dim = E + ws.sum := by
          simp [PointPatchTransformer.embed_dim, hted, hsd, hTE]
        have hshape : shapeList (m.pointForward pts :: aux.map Prod.snd) B (E :: ws) = true := by
          simp [shapeList, hws]
          exact hpool
        obtain ⟨out, ho1, ho2⟩ := torchConcatenate_shape hshape (by simp)
        refine ⟨out, ?_, ?_⟩
        · rw [forward_dict_none_eval m pts aux hdict henc]
          exact ho1
        · rw [hED]
          simpa using ho2
      | some d =>
        rw [init_dict_some_eq es tokF posF teF poolF E rng pd ws.sum d hl hS] at hinit
        injection hinit with hm
        have hdict : m.obs_is_dict = true := by rw [← hm]
        have henc : m.state_encoder =
            some (mkLinearDefault rng (buildBase tokF posF teF poolF pd E rng).2.2.2.2 ws.sum d).1 := by
          rw [← hm]
        have hted : m.transformer_encoder.embed_dim = (teF E).embed_dim := by
          rw [← hm]
          exact buildBase_te_embed_dim tokF posF teF poolF pd E rng
        have hsd : m.state_dim = d := by rw [← hm]
        have hED : m.embed_dim = E + d := by
          simp [PointPatchTransformer.embed_dim, hted, hsd, hTE]
        have hne' : aux ≠ [] := hne (by rw [henc]; rfl)
        have hauxne : aux.map Prod.snd ≠ [] := by
          cases aux with
          | nil => exact absurd rfl hne'
          | cons a as => simp
        obtain ⟨s, hs1, hs2⟩ := torchConcatenate_shape hws hauxne
        have hwf := mkLinearDefault_wf rng
          (buildBase tokF posF teF poolF pd E rng).2.2.2.2 ws.sum d
        obtain ⟨s', hp1, hp2⟩ := linearApply_shape hwf hs2
        have hfin : shapeList [m.pointForward pts, s'] B [E, d] = true := by
          simp [shapeList, hp2]
          exact hpool
        obtain ⟨out, ho1, ho2⟩ := torchConcatenate_shape hfin (by simp)
        refine ⟨out, forward_dict_some_eval m pts aux _ s s' out hdict henc hs1 hp1 ho1, ?_⟩
        rw [hED]
        simpa using ho2

/-- C1 witness: the amended property at the concrete projected composite
configuration with one auxiliary field. -/
theorem c1_witness :
    cMGoalProj.embed_dim = cMGoalProj.transformer_encoder.embed_dim + cMGoalProj.state_dim ∧
    ∃ out, cMGoalProj.forward (.dict cPC [("goal", [[5, 6]])]) = some out ∧
      hasShape out 1 cMGoalProj.embed_dim = true :=
  c1_embed_dim_matches_output cTokF cPosF cTeF cPoolF 2 1 (some 2) cRng
    cSpaceGoal (.dict cPC [("goal", [[5, 6]])]) cMGoalProj
    rfl rfl (by decide) (by decide) (by decide)
